import Mathlib

/-!
Verification of the ACORD form field extractor
(`extract_acord_fields.py`): a shallow embedding of the line-classifier
rule cascade (`identify_field_names`), the cross-page field aggregation
(`extract_fields`) and the sorted report view (`save_results`), together
with theorems about them.

Strings are modelled as `List Char`.  The Python regexes of the five
rules are embedded by their matching semantics on a line: each regex is
anchored at the start of the line (`^`), its character classes contain
no colon or underscore, and the greedy/backtracking behaviour therefore
reduces to `takeWhile`/`dropWhile` runs, which is how the matchers below
are written.  Character classes (`[A-Z]`, `\d`, `\s`, the label class)
are modelled over their ASCII meaning (the inputs of interest are ASCII
text plus the checkbox glyphs, which are handled explicitly); Python's
`str.isupper` on the first character is likewise modelled as ASCII
uppercase.
-/

namespace Acord

/-- ASCII uppercase letter, the regex class `[A-Z]` (also models
Python's `line[0].isupper()` on ASCII text). -/
def isAsciiUpper (c : Char) : Bool := decide (65 ≤ c.toNat ∧ c.toNat ≤ 90)

/-- ASCII letter, the regex class `[A-Za-z]`. -/
def isAsciiAlpha (c : Char) : Bool :=
  decide ((65 ≤ c.toNat ∧ c.toNat ≤ 90) ∨ (97 ≤ c.toNat ∧ c.toNat ≤ 122))

/-- ASCII digit, the regex class `\d`. -/
def isAsciiDigit (c : Char) : Bool := decide (48 ≤ c.toNat ∧ c.toNat ≤ 57)

/-- Whitespace, the regex class `\s` (space, tab, newline, carriage
return, vertical tab, form feed); also what `str.strip()` removes. -/
def pyIsSpace (c : Char) : Bool :=
  decide (c.toNat = 32 ∨ c.toNat = 9 ∨ c.toNat = 10 ∨ c.toNat = 13 ∨
          c.toNat = 11 ∨ c.toNat = 12)

/-- The label character class of rules 1-4:
`[A-Za-z\s&/\-,()]` - letters, whitespace, `&`, `/`, `-`, `,`, `(`, `)`. -/
def isLabelChar (c : Char) : Bool :=
  isAsciiAlpha c || pyIsSpace c ||
  decide (c.toNat = 38 ∨ c.toNat = 47 ∨ c.toNat = 45 ∨ c.toNat = 44 ∨
          c.toNat = 40 ∨ c.toNat = 41)

/-- The checkbox glyph class of rule 4: `[☐□○◯O]`
(U+2610, U+25A1, U+25CB, U+25EF, and capital letter O). -/
def isGlyph (c : Char) : Bool :=
  decide (c.toNat = 9744 ∨ c.toNat = 9633 ∨ c.toNat = 9675 ∨
          c.toNat = 9711 ∨ c.toNat = 79)

/-- Remove leading whitespace (half of Python `str.strip()`). -/
def stripLeft (l : List Char) : List Char := l.dropWhile pyIsSpace

/-- Remove trailing whitespace (half of Python `str.strip()`). -/
def stripRight (l : List Char) : List Char :=
  (l.reverse.dropWhile pyIsSpace).reverse

/-- Python `str.strip()`: remove leading and trailing whitespace. -/
def pyStrip (l : List Char) : List Char := stripRight (stripLeft l)

/-- Python `text.split('\n')`: split on every newline, keeping empty
pieces (`"".split('\n') == [""]`). -/
def splitOnNl : List Char → List (List Char)
  | [] => [[]]
  | c :: rest =>
    if c.toNat = 10 then [] :: splitOnNl rest
    else
      match splitOnNl rest with
      | [] => [[c]]
      | h :: t => (c :: h) :: t

/-- Helper for `wordCount`: the Boolean records whether the previous
character was a non-whitespace character (inside a word). -/
def wordCountAux : List Char → Bool → Nat
  | [], _ => 0
  | c :: rest, inWord =>
    if pyIsSpace c then wordCountAux rest false
    else (if inWord then 0 else 1) + wordCountAux rest true

/-- `len(s.split())` in Python: the number of maximal runs of
non-whitespace characters. -/
def wordCount (l : List Char) : Nat := wordCountAux l false

/-- Rule 1 regex `^([A-Z][A-Za-z\s&/\-,()]+):\s*$` applied to a line
(`re.search`, anchored both ends).  The label class contains no colon,
so the greedy group ends exactly at the first non-label character,
which must be a colon, followed only by whitespace.  Returns
`group(1).strip()` on a match. -/
def match1 : List Char → Option (List Char)
  | [] => none
  | c :: rest =>
    if isAsciiUpper c then
      let body := rest.takeWhile isLabelChar
      let after := rest.dropWhile isLabelChar
      match after with
      | a :: ws =>
        if a.toNat = 58 ∧ 1 ≤ body.length ∧ ws.all pyIsSpace then
          some (pyStrip (c :: body))
        else none
      | [] => none
    else none

/-- Rule 2 regex `^([A-Z][A-Za-z\s&/\-,()]+)\s+_{2,}` applied to a
line.  Whitespace belongs to the label class, so the greedy group plus
the mandatory `\s+` together form the maximal label-class run `run`
after the first character; the match succeeds exactly when that run has
length at least 2, ends in a whitespace character (backtracking gives
exactly one character back to `\s+`), and is followed by two
underscores.  Returns `group(1).strip()` on a match. -/
def match2 : List Char → Option (List Char)
  | [] => none
  | c :: rest =>
    if isAsciiUpper c then
      let run := rest.takeWhile isLabelChar
      let after := rest.dropWhile isLabelChar
      match after with
      | u1 :: u2 :: _ =>
        if u1.toNat = 95 ∧ u2.toNat = 95 ∧ 2 ≤ run.length ∧
            pyIsSpace (run.getLastD '_') then
          some (pyStrip (c :: run.dropLast))
        else none
      | _ => none
    else none

/-- Rule 3 regex `^\d+\.\s+([A-Z][A-Za-z\s&/\-,()]+)(?::|$)` applied to
a line: digits, a period, mandatory whitespace, then a label whose
greedy run must be followed by a colon or the end of the line.  Returns
`group(1).strip()` on a match. -/
def match3 (l : List Char) : Option (List Char) :=
  let ds := l.takeWhile isAsciiDigit
  let r1 := l.dropWhile isAsciiDigit
  if 1 ≤ ds.length then
    match r1 with
    | d :: r2 =>
      if d.toNat = 46 then
        let ws := r2.takeWhile pyIsSpace
        let r3 := r2.dropWhile pyIsSpace
        if 1 ≤ ws.length then
          match r3 with
          | u :: r4 =>
            if isAsciiUpper u then
              let body := r4.takeWhile isLabelChar
              let after := r4.dropWhile isLabelChar
              if 1 ≤ body.length ∧ (after = [] ∨ (after.headD ' ').toNat = 58)
              then some (pyStrip (u :: body))
              else none
            else none
          | [] => none
        else none
      else none
    | [] => none
  else none

/-- Rule 4 regex `^[☐□○◯O]\s+([A-Z][A-Za-z\s&/\-,()]+)` applied to a
line: a checkbox glyph, mandatory whitespace, then a label; nothing is
required after the greedy label run.  Returns `group(1).strip()` on a
match. -/
def match4 : List Char → Option (List Char)
  | [] => none
  | g :: rest =>
    if isGlyph g then
      let ws := rest.takeWhile pyIsSpace
      let r2 := rest.dropWhile pyIsSpace
      if 1 ≤ ws.length then
        match r2 with
        | u :: r3 =>
          if isAsciiUpper u then
            let body := r3.takeWhile isLabelChar
            if 1 ≤ body.length then some (pyStrip (u :: body)) else none
          else none
        | [] => none
      else none
    else none

/-- Rule 5, the generic colon-split fallback: the line starts with an
uppercase letter and contains a colon; `line.split(':')[0].strip()` is
the candidate, accepted when it has at most 8 whitespace-separated
words and fewer than 100 characters. -/
def rule5 (l : List Char) : Option (List Char) :=
  match l with
  | [] => none
  | c :: _ =>
    if isAsciiUpper c ∧ l.any (fun x => x.toNat = 58) then
      if wordCount (pyStrip (l.takeWhile (fun x => x.toNat ≠ 58))) ≤ 8 ∧
          (pyStrip (l.takeWhile (fun x => x.toNat ≠ 58))).length < 100 then
        some (pyStrip (l.takeWhile (fun x => x.toNat ≠ 58)))
      else none
    else none

/-- The body of the per-line loop of `identify_field_names`, applied to
an already-stripped, non-empty line: the five rules are tried in order;
a matching regex consumes the line (`continue`) even when its length
filter rejects the extracted label.  Returns the matched rule index and
the candidate. -/
def classifyLine (l : List Char) : Option (Nat × List Char) :=
  match match1 l with
  | some name =>
    if 3 < name.length ∧ name.length < 100 then some (1, name) else none
  | none =>
    match match2 l with
    | some name =>
      if 3 < name.length ∧ name.length < 100 then some (2, name) else none
    | none =>
      match match3 l with
      | some name =>
        if 3 < name.length ∧ name.length < 100 then some (3, name) else none
      | none =>
        match match4 l with
        | some name =>
          if 2 < name.length ∧ name.length < 100 then some (4, name) else none
        | none =>
          match rule5 l with
          | some name => some (5, name)
          | none => none

/-- One loop iteration of `identify_field_names`: strip the line, skip
it when empty, otherwise run the rule cascade; the candidates the
iteration appends (zero or one). -/
def lineCandidates (l : List Char) : List (List Char) :=
  if pyStrip l = [] then []
  else
    match classifyLine (pyStrip l) with
    | some kn => [kn.2]
    | none => []

/-- `identify_field_names(text)` over `List Char`: split the text on
newlines and run the per-line cascade, collecting candidates in line
order. -/
def identifyFieldNamesL (text : List Char) : List (List Char) :=
  (splitOnNl text).flatMap lineCandidates

/-- `identify_field_names(text)` on `String`s. -/
def identify_field_names (text : String) : List String :=
  (identifyFieldNamesL text.data).map (fun l => String.mk l)

/-- The page loop of `extract_fields`: starting from the empty set,
union in each page's identified field names
(`self.field_names.update(fields)`); `pages` is the OCR text of each
page, in page order. -/
def extractPages (pages : List String) : Finset String :=
  pages.foldl (fun s t => s ∪ (identify_field_names t).toFinset) ∅

/-- Insertion of a stream of individual candidates into the running
set, one at a time, in stream order. -/
def aggregate (cands : List String) : Finset String :=
  cands.foldl (fun s c => insert c s) ∅

/-- Lexicographic comparison of character lists by code point, the
order Python's `sorted` uses on strings. -/
def strLeB : List Char → List Char → Bool
  | [], _ => true
  | _ :: _, [] => false
  | a :: as, b :: bs =>
    if a.toNat < b.toNat then true
    else if b.toNat < a.toNat then false
    else strLeB as bs

/-- The string order used by `sorted(self.field_names)`:
code-point-lexicographic. -/
def pyLe (a b : String) : Prop := strLeB a.data b.data = true

instance : DecidableRel pyLe := fun a b =>
  inferInstanceAs (Decidable (strLeB a.data b.data = true))

theorem char_eq_of_toNat_eq {a b : Char} (h : a.toNat = b.toNat) : a = b :=
  Char.eq_of_val_eq (UInt32.toNat.inj h)

theorem strLeB_total : ∀ as bs, strLeB as bs = true ∨ strLeB bs as = true
  | [], _ => Or.inl rfl
  | _ :: _, [] => Or.inr rfl
  | a :: as, b :: bs => by
    rcases Nat.lt_trichotomy a.toNat b.toNat with h | h | h
    · left; simp [strLeB, h]
    · have h1 : ¬ a.toNat < b.toNat := by omega
      have h2 : ¬ b.toNat < a.toNat := by omega
      rcases strLeB_total as bs with ih | ih
      · left; simp [strLeB, h1, h2, ih]
      · right; simp [strLeB, h1, h2, ih]
    · right; simp [strLeB, h]

theorem strLeB_trans :
    ∀ as bs cs, strLeB as bs = true → strLeB bs cs = true → strLeB as cs = true
  | [], _, _ => by intro _ _; rfl
  | _ :: _, [], _ => by intro h1 _; simp [strLeB] at h1
  | _ :: _, _ :: _, [] => by intro _ h2; simp [strLeB] at h2
  | a :: as, b :: bs, c :: cs => by
    intro h1 h2
    rcases Nat.lt_trichotomy a.toNat b.toNat with hab | hab | hab
    · rcases Nat.lt_trichotomy b.toNat c.toNat with hbc | hbc | hbc
      · simp [strLeB, show a.toNat < c.toNat by omega]
      · simp [strLeB, show a.toNat < c.toNat by omega]
      · simp [strLeB, show ¬ b.toNat < c.toNat by omega, hbc] at h2
    · rcases Nat.lt_trichotomy b.toNat c.toNat with hbc | hbc | hbc
      · simp [strLeB, show a.toNat < c.toNat by omega]
      · have hna : ¬ a.toNat < b.toNat := by omega
        have hnb : ¬ b.toNat < a.toNat := by omega
        have hnc : ¬ b.toNat < c.toNat := by omega
        have hnd : ¬ c.toNat < b.toNat := by omega
        simp only [strLeB, if_neg hna, if_neg hnb] at h1
        simp only [strLeB, if_neg hnc, if_neg hnd] at h2
        simp [strLeB, show ¬ a.toNat < c.toNat by omega,
          show ¬ c.toNat < a.toNat by omega, strLeB_trans as bs cs h1 h2]
      · simp [strLeB, show ¬ b.toNat < c.toNat by omega, hbc] at h2
    · simp [strLeB, show ¬ a.toNat < b.toNat by omega, hab] at h1

theorem strLeB_antisymm :
    ∀ as bs, strLeB as bs = true → strLeB bs as = true → as = bs
  | [], [] => by intro _ _; rfl
  | [], _ :: _ => by intro _ h2; simp [strLeB] at h2
  | _ :: _, [] => by intro h1 _; simp [strLeB] at h1
  | a :: as, b :: bs => by
    intro h1 h2
    rcases Nat.lt_trichotomy a.toNat b.toNat with h | h | h
    · simp [strLeB, show ¬ b.toNat < a.toNat by omega, h] at h2
    · have hna : ¬ a.toNat < b.toNat := by omega
      have hnb : ¬ b.toNat < a.toNat := by omega
      simp only [strLeB, if_neg hna, if_neg hnb] at h1
      simp only [strLeB, if_neg hna, if_neg hnb] at h2
      rw [char_eq_of_toNat_eq h, strLeB_antisymm as bs h1 h2]
    · simp [strLeB, show ¬ a.toNat < b.toNat by omega, h] at h1

instance : IsTrans String pyLe :=
  ⟨fun a b c h1 h2 => strLeB_trans a.data b.data c.data h1 h2⟩

instance : IsAntisymm String pyLe :=
  ⟨fun a b h1 h2 => String.toList_inj.mp (strLeB_antisymm a.data b.data h1 h2)⟩

instance : IsTotal String pyLe :=
  ⟨fun a b => strLeB_total a.data b.data⟩

instance : IsRefl String pyLe :=
  ⟨fun a => (strLeB_total a.data a.data).elim id id⟩

/-- The finalized view of `save_results`:
`sorted(self.field_names)` - the set as a lexicographically sorted
list. -/
def finalizeFields (s : Finset String) : List String :=
  s.sort pyLe

/-- The text report `save_results` writes, as a list of lines: header
block, then the sorted fields numbered from 1. -/
def save_results (srcName : String) (fields : Finset String) : List String :=
  let sorted := finalizeFields fields
  ["ACORD Form Field Names",
   String.mk (List.replicate 50 '='),
   "Source: " ++ srcName,
   "Total Fields Found: " ++ toString sorted.length,
   String.mk (List.replicate 50 '='),
   ""] ++
  sorted.enum.map (fun p => toString (p.1 + 1) ++ ". " ++ p.2)

/-- Observable events of one run of the pipeline driver: a page being
processed (with its per-page candidate count), the report file being
written, and process exit. -/
inductive Event where
  | pageProcessed (page : Nat) (count : Nat)
  | reportWritten (lines : List String)
  | exited (code : Nat)
deriving DecidableEq

/-- `Event.reportWritten`? -/
def Event.isReport : Event → Bool
  | .reportWritten _ => true
  | _ => false

/-- The driver (`extract_fields` followed by `save_results` in `main`)
as an event trace.  `raster` is the PDF rasterizer's outcome: `none`
when `convert_from_path` raises (the driver then exits with code 1
before touching the output file), `some pages` the OCR text of each
page otherwise.  On success every page is processed first, then the
report is written once, then the process exits with code 0. -/
def driverTrace (srcName : String) (raster : Option (List String)) :
    List Event :=
  match raster with
  | none => [Event.exited 1]
  | some pages =>
    (pages.enum.map (fun p =>
      Event.pageProcessed (p.1 + 1) (identify_field_names p.2).length)) ++
    [Event.reportWritten (save_results srcName (extractPages pages)),
     Event.exited 0]

/-! ### Helper lemmas -/

theorem rule5_sound {l name : List Char} (h : rule5 l = some name) :
    wordCount name ≤ 8 ∧ name.length < 100 := by
  unfold rule5 at h
  repeat' split at h
  all_goals simp only [Option.some.injEq, reduceCtorEq] at h
  subst h
  assumption

theorem classifyLine_length {l : List Char} {k : Nat} {nm : List Char}
    (h : classifyLine l = some (k, nm)) : nm.length < 100 := by
  unfold classifyLine at h
  repeat' split at h
  all_goals simp only [Option.some.injEq, Prod.mk.injEq, reduceCtorEq] at h
  all_goals obtain ⟨hk, hn⟩ := h
  all_goals subst hn
  · omega
  · omega
  · omega
  · omega
  · rename_i heq
    exact (rule5_sound heq).2

theorem mem_lineCandidates {nm line : List Char} (h : nm ∈ lineCandidates line) :
    ∃ k, classifyLine (pyStrip line) = some (k, nm) := by
  unfold lineCandidates at h
  split at h
  · simp at h
  · split at h
    · rename_i kn heq
      simp only [List.mem_singleton] at h
      subst h
      exact ⟨kn.1, heq⟩
    · simp at h

theorem foldl_insert_eq (l : List String) :
    ∀ s : Finset String, l.foldl (fun s c => insert c s) s = s ∪ l.toFinset := by
  induction l with
  | nil => intro s; simp
  | cons c l ih =>
    intro s
    simp [List.foldl_cons, ih, Finset.insert_union, Finset.union_insert]

theorem aggregate_eq_toFinset (l : List String) : aggregate l = l.toFinset := by
  unfold aggregate
  rw [foldl_insert_eq]
  simp

theorem mem_foldl_union (pages : List String) :
    ∀ (s : Finset String) (x : String),
      (x ∈ pages.foldl (fun s t => s ∪ (identify_field_names t).toFinset) s) ↔
      x ∈ s ∨ ∃ t ∈ pages, x ∈ identify_field_names t := by
  induction pages with
  | nil => simp
  | cons p ps ih =>
    intro s x
    simp [List.foldl_cons, ih, Finset.mem_union, List.mem_toFinset, or_assoc]

theorem mem_extractPages {pages : List String} {x : String} :
    x ∈ extractPages pages ↔ ∃ t ∈ pages, x ∈ identify_field_names t := by
  unfold extractPages
  rw [mem_foldl_union]
  simp

theorem takeWhile_append_of_all {α : Type} {p : α → Bool} :
    ∀ {xs ys : List α}, xs.all p = true →
      (xs ++ ys).takeWhile p = xs ++ ys.takeWhile p
  | [], _, _ => rfl
  | x :: xs, ys, h => by
    simp only [List.all_cons, Bool.and_eq_true] at h
    simp [List.takeWhile_cons, h.1, takeWhile_append_of_all h.2]

theorem dropWhile_append_of_all {α : Type} {p : α → Bool} :
    ∀ {xs ys : List α}, xs.all p = true →
      (xs ++ ys).dropWhile p = ys.dropWhile p
  | [], _, _ => rfl
  | x :: xs, ys, h => by
    simp only [List.all_cons, Bool.and_eq_true] at h
    simp [List.dropWhile_cons, h.1, dropWhile_append_of_all h.2]

theorem all_getLastD {α : Type} {p : α → Bool} :
    ∀ {ws : List α} {d : α}, ws ≠ [] → ws.all p = true → p (ws.getLastD d) = true
  | [], _, hne, _ => absurd rfl hne
  | [a], _, _, h => by simpa using h
  | a :: b :: t, d, _, h => by
    simp only [List.all_cons, Bool.and_eq_true] at h
    rw [List.getLastD_cons]
    exact all_getLastD (by simp) (by simp [h.2.1, h.2.2])

theorem getLastD_append_of_ne_nil {α : Type} :
    ∀ (xs : List α) {ws : List α} {d : α}, ws ≠ [] →
      (xs ++ ws).getLastD d = ws.getLastD d
  | [], _, _, _ => rfl
  | x :: xs, ws, d, h => by
    rw [List.cons_append, List.getLastD_cons, getLastD_append_of_ne_nil xs h]
    cases ws with
    | nil => exact absurd rfl h
    | cons w ws1 => rw [List.getLastD_cons, List.getLastD_cons]

theorem stripRight_append_of_all_space {l ws : List Char}
    (h : ws.all pyIsSpace = true) : stripRight (l ++ ws) = stripRight l := by
  unfold stripRight
  rw [List.reverse_append, dropWhile_append_of_all (by simpa using h)]

theorem pyStrip_length_le (l : List Char) : (pyStrip l).length ≤ l.length := by
  unfold pyStrip stripRight stripLeft
  calc ((l.dropWhile pyIsSpace).reverse.dropWhile pyIsSpace).reverse.length
      = ((l.dropWhile pyIsSpace).reverse.dropWhile pyIsSpace).length := by
        rw [List.length_reverse]
    _ ≤ (l.dropWhile pyIsSpace).reverse.length := (List.dropWhile_sublist _).length_le
    _ = (l.dropWhile pyIsSpace).length := by rw [List.length_reverse]
    _ ≤ l.length := (List.dropWhile_sublist _).length_le

theorem space_isLabelChar {x : Char} (h : pyIsSpace x = true) :
    isLabelChar x = true := by
  simp [isLabelChar, h]

/-! ### Claims -/

/-- C1: on the one-page OCR text with the five lines "Named Insured:",
"Address ________", "1. Policy Number", "☐ Yes",
"Effective Date: 01/01/2024", the classifier produces exactly the five
candidates "Named Insured", "Address", "Policy Number", "Yes",
"Effective Date", the five lines being matched by rules 1 through 5
respectively. -/
theorem claim_C1_end_to_end_scenario :
    identify_field_names
      "Named Insured:\nAddress ________\n1. Policy Number\n☐ Yes\nEffective Date: 01/01/2024" =
      ["Named Insured", "Address", "Policy Number", "Yes", "Effective Date"] ∧
    classifyLine "Named Insured:".data = some (1, "Named Insured".data) ∧
    classifyLine "Address ________".data = some (2, "Address".data) ∧
    classifyLine "1. Policy Number".data = some (3, "Policy Number".data) ∧
    classifyLine "☐ Yes".data = some (4, "Yes".data) ∧
    classifyLine "Effective Date: 01/01/2024".data = some (5, "Effective Date".data) := by
  decide

/-- C2: a line matched by rule 1's regex (with rule 1's length bounds
satisfied) that also satisfies rule 5's condition is classified by
rule 1, and every line contributes at most one candidate, so it is
never double-counted via rule 5. -/
theorem claim_C2_rule1_wins_over_rule5 (l name name5 : List Char)
    (h1 : match1 l = some name) (hlo : 3 < name.length)
    (hhi : name.length < 100) (h5 : rule5 l = some name5) :
    classifyLine l = some (1, name) ∧
    ∀ l2 : List Char, (lineCandidates l2).length ≤ 1 := by
  have hkeep : rule5 l = some name5 := h5
  constructor
  · unfold classifyLine
    rw [h1]
    simp [hlo, hhi]
  · intro l2
    unfold lineCandidates
    split
    · simp
    · split <;> simp

/-- Witness for C2 at the line "Policy Number:", which matches both
rule 1 and rule 5. -/
theorem claim_C2_rule1_wins_over_rule5_witness :
    match1 "Policy Number:".data = some "Policy Number".data ∧
    rule5 "Policy Number:".data = some "Policy Number".data ∧
    classifyLine "Policy Number:".data = some (1, "Policy Number".data) :=
  ⟨by decide, by decide,
    (claim_C2_rule1_wins_over_rule5 "Policy Number:".data "Policy Number".data
      "Policy Number".data (by decide) (by decide) (by decide) (by decide)).1⟩

/-- C3: rule 4's regex does match "☐ No" and extracts the label "No",
but the code's length filter `len(field_name) > 2` rejects the
two-character label, so "☐ No" yields no candidate at all, while
"☐ Yes" (length 3) yields "Yes".  This contradicts the claim (and the
code's own `□ No` example comment and the spec's stated reason for the
relaxed bound). -/
theorem claim_C3_checkbox_no_rejected :
    match4 "☐ No".data = some "No".data ∧
    classifyLine "☐ No".data = none ∧
    identify_field_names "☐ No" = [] ∧
    classifyLine "☐ Yes".data = some (4, "Yes".data) := by
  decide

/-- C4 counterexample: without whitespace between the label and the
underscores, rule 2's regex (`\s+` is mandatory) does not match, no
other rule matches, and the line yields nothing — the claim says
"Address________" would also yield "Address". -/
theorem claim_C4_counterexample :
    identify_field_names "Address________" = [] ∧
    identify_field_names "Address ________" = ["Address"] := by
  decide

/-- C4 (amended): for every line consisting of a label (rule-1
character class, starting with an ASCII uppercase letter) followed by
AT LEAST ONE WHITESPACE character and then two or more underscores,
with trimmed label length strictly between 3 and 100, the classifier
returns the trimmed label via rule 2.  (The original claim's
"whether or not whitespace separates the label from the underscores"
is false: the regex requires `\s+`.) -/
theorem claim_C4_underscore_needs_whitespace (c : Char) (rest ws us : List Char)
    (hc : isAsciiUpper c = true)
    (hrest : rest.all isLabelChar = true)
    (hwsne : ws ≠ []) (hws : ws.all pyIsSpace = true)
    (huslen : 2 ≤ us.length) (hus : us.all (fun x => x.toNat = 95) = true)
    (hlo : 3 < (pyStrip (c :: rest)).length)
    (hhi : (pyStrip (c :: rest)).length < 100) :
    classifyLine (c :: (rest ++ ws ++ us)) = some (2, pyStrip (c :: rest)) := by
  rcases us with _ | ⟨u1, us1⟩
  · simp at huslen
  rcases us1 with _ | ⟨u2, us2⟩
  · simp at huslen
  simp only [List.all_cons, Bool.and_eq_true, decide_eq_true_eq] at hus
  obtain ⟨hu1, hu2, -⟩ := hus
  have hcn : 65 ≤ c.toNat ∧ c.toNat ≤ 90 := by simpa [isAsciiUpper] using hc
  have hspc : pyIsSpace c = false := by
    simp only [pyIsSpace, decide_eq_false_iff_not]
    omega
  have hu1lab : isLabelChar u1 = false := by
    simp only [isLabelChar, isAsciiAlpha, pyIsSpace, Bool.or_eq_false_iff,
      decide_eq_false_iff_not]
    refine ⟨⟨?_, ?_⟩, ?_⟩ <;> omega
  have hwslab : ws.all isLabelChar = true := by
    rw [List.all_eq_true] at hws ⊢
    intro x hx
    exact space_isLabelChar (hws x hx)
  have hrestws : (rest ++ ws).all isLabelChar = true := by
    simp [List.all_append, hrest, hwslab]
  have htake : ((rest ++ ws) ++ (u1 :: u2 :: us2)).takeWhile isLabelChar
      = rest ++ ws := by
    rw [takeWhile_append_of_all hrestws]
    simp [List.takeWhile_cons, hu1lab]
  have hdrop : ((rest ++ ws) ++ (u1 :: u2 :: us2)).dropWhile isLabelChar
      = u1 :: u2 :: us2 := by
    rw [dropWhile_append_of_all hrestws]
    simp [List.dropWhile_cons, hu1lab]
  have hrlen : 3 ≤ rest.length := by
    have hle := pyStrip_length_le (c :: rest)
    simp only [List.length_cons] at hle
    omega
  have h1 : match1 (c :: (rest ++ ws ++ (u1 :: u2 :: us2))) = none := by
    unfold match1
    simp only [hc, if_true]
    rw [hdrop]
    simp [show ¬ u1.toNat = 58 from by omega]
  have hstriplem : pyStrip (c :: (rest ++ ws.dropLast)) = pyStrip (c :: rest) := by
    have hwsd : (ws.dropLast).all pyIsSpace = true := by
      rw [List.all_eq_true] at hws ⊢
      intro x hx
      exact hws x (List.dropLast_subset ws hx)
    unfold pyStrip
    rw [show stripLeft (c :: (rest ++ ws.dropLast)) = c :: (rest ++ ws.dropLast) from by
        simp [stripLeft, List.dropWhile_cons, hspc],
      show stripLeft (c :: rest) = c :: rest from by
        simp [stripLeft, List.dropWhile_cons, hspc],
      show c :: (rest ++ ws.dropLast) = (c :: rest) ++ ws.dropLast from rfl]
    exact stripRight_append_of_all_space hwsd
  have h2 : match2 (c :: (rest ++ ws ++ (u1 :: u2 :: us2)))
      = some (pyStrip (c :: rest)) := by
    unfold match2
    simp only [hc, if_true]
    rw [htake, hdrop]
    have hlast : pyIsSpace ((rest ++ ws).getLastD '_') = true := by
      rw [getLastD_append_of_ne_nil rest hwsne]
      exact all_getLastD hwsne hws
    have hlen2 : 2 ≤ (rest ++ ws).length := by
      simp only [List.length_append]
      omega
    show (if u1.toNat = 95 ∧ u2.toNat = 95 ∧ 2 ≤ (rest ++ ws).length ∧
        pyIsSpace ((rest ++ ws).getLastD '_') = true then
        some (pyStrip (c :: (rest ++ ws).dropLast)) else none) =
      some (pyStrip (c :: rest))
    rw [if_pos ⟨hu1, hu2, hlen2, hlast⟩,
      List.dropLast_append_of_ne_nil rest hwsne, hstriplem]
  unfold classifyLine
  rw [h1, h2]
  simp [hlo, hhi]

/-- Witness for the amended C4 at the line "Address ________". -/
theorem claim_C4_underscore_needs_whitespace_witness :
    classifyLine "Address ________".data = some (2, "Address".data) :=
  claim_C4_underscore_needs_whitespace 'A' "ddress".data [' '] "________".data
    (by decide) (by decide) (by decide) (by decide) (by decide) (by decide)
    (by decide) (by decide)

/-- C5: the finalized view of the set {"Zip Code", "Named Insured",
"Agent Name"} is exactly ["Agent Name", "Named Insured", "Zip Code"],
and in general the finalized view of the accumulated set does not
depend on the order in which candidates were inserted. -/
theorem claim_C5_deterministic_ordering :
    finalizeFields ({"Zip Code", "Named Insured", "Agent Name"} : Finset String) =
      ["Agent Name", "Named Insured", "Zip Code"] ∧
    ∀ l1 l2 : List String, l1.Perm l2 →
      finalizeFields (aggregate l1) = finalizeFields (aggregate l2) := by
  constructor
  · have h : ({"Zip Code", "Named Insured", "Agent Name"} : Finset String) =
        insert "Agent Name" (insert "Named Insured" {"Zip Code"}) := by decide
    have e1 : ∀ b ∈ (insert "Named Insured" {"Zip Code"} : Finset String),
        pyLe "Agent Name" b := by decide
    have e2 : ("Agent Name" : String) ∉
        (insert "Named Insured" ({"Zip Code"} : Finset String)) := by decide
    have e3 : ∀ b ∈ ({"Zip Code"} : Finset String), pyLe "Named Insured" b := by
      decide
    have e4 : ("Named Insured" : String) ∉ ({"Zip Code"} : Finset String) := by
      decide
    rw [finalizeFields, h, Finset.sort_insert pyLe e1 e2,
      Finset.sort_insert pyLe e3 e4, Finset.sort_singleton]
  · intro l1 l2 hp
    rw [aggregate_eq_toFinset, aggregate_eq_toFinset,
      List.toFinset_eq_of_perm _ _ hp]

/-- Witness for C5: two insertion orders of the same candidates give
the same finalized view. -/
theorem claim_C5_deterministic_ordering_witness :
    finalizeFields (aggregate ["Zip Code", "Named Insured"]) =
      finalizeFields (aggregate ["Named Insured", "Zip Code"]) :=
  claim_C5_deterministic_ordering.2 _ _
    (List.Perm.swap "Named Insured" "Zip Code" [])

/-- C6: the line "A:" is rejected by rules 1, 2 and 3 (their regexes
need at least two characters before the terminator, and their length
filters need more than 3), and no rule ever lets a label of 100 or
more characters through, so every candidate the classifier returns is
shorter than 100 characters (in particular never longer than 100). -/
theorem claim_C6_length_bounds :
    match1 "A:".data = none ∧ match2 "A:".data = none ∧
    match3 "A:".data = none ∧
    ∀ (text name : String), name ∈ identify_field_names text →
      name.length < 100 := by
  refine ⟨by decide, by decide, by decide, ?_⟩
  intro text name h
  unfold identify_field_names at h
  simp only [List.mem_map] at h
  obtain ⟨nm, hnm, rfl⟩ := h
  unfold identifyFieldNamesL at hnm
  simp only [List.mem_flatMap] at hnm
  obtain ⟨line, -, hmem⟩ := hnm
  obtain ⟨k, hk⟩ := mem_lineCandidates hmem
  exact classifyLine_length hk

/-- Witness for C6 on a concrete extracted candidate. -/
theorem claim_C6_length_bounds_witness :
    ("Named Insured" : String) ∈ identify_field_names "Named Insured:" ∧
    ("Named Insured" : String).length < 100 :=
  ⟨by decide,
    claim_C6_length_bounds.2.2.2 "Named Insured:" "Named Insured" (by decide)⟩

/-- C7: when the first rule whose regex matches a line extracts a
label that fails that rule's length bounds, the cascade yields no
candidate at all for the line — the line never falls through to a
later rule. -/
theorem claim_C7_failed_bounds_consume_line (l name : List Char)
    (h : (match1 l = some name ∧ ¬(3 < name.length ∧ name.length < 100)) ∨
         (match1 l = none ∧ match2 l = some name ∧
            ¬(3 < name.length ∧ name.length < 100)) ∨
         (match1 l = none ∧ match2 l = none ∧ match3 l = some name ∧
            ¬(3 < name.length ∧ name.length < 100)) ∨
         (match1 l = none ∧ match2 l = none ∧ match3 l = none ∧
            match4 l = some name ∧ ¬(2 < name.length ∧ name.length < 100))) :
    classifyLine l = none := by
  unfold classifyLine
  rcases h with ⟨h1, hb⟩ | ⟨h1, h2, hb⟩ | ⟨h1, h2, h3, hb⟩ | ⟨h1, h2, h3, h4, hb⟩
  · rw [h1]; simp [hb]
  · rw [h1, h2]; simp [hb]
  · rw [h1, h2, h3]; simp [hb]
  · rw [h1, h2, h3, h4]; simp [hb]

/-- Witness for C7 at the line "AB:": rule 1's regex matches with the
too-short label "AB", so the line yields nothing, although rule 5
alone would have accepted "AB". -/
theorem claim_C7_failed_bounds_consume_line_witness :
    rule5 "AB:".data = some "AB".data ∧ classifyLine "AB:".data = none :=
  ⟨by decide,
    claim_C7_failed_bounds_consume_line "AB:".data "AB".data
      (Or.inl ⟨by decide, by decide⟩)⟩

/-- C8: rule 5 has no lower bound on label length: for every ASCII
uppercase letter `c`, the two-character line `c:` is not matched by
rule 1's regex (which needs at least two characters before the colon)
and is classified by rule 5 as the single-character candidate `c`. -/
theorem claim_C8_rule5_no_lower_bound (c : Char) (h : isAsciiUpper c = true) :
    match1 [c, ':'] = none ∧ classifyLine [c, ':'] = some (5, [c]) := by
  have hn : 65 ≤ c.toNat ∧ c.toNat ≤ 90 := by
    simpa [isAsciiUpper] using h
  have hdig : isAsciiDigit c = false := by
    simp only [isAsciiDigit, decide_eq_false_iff_not]
    omega
  have hsp : pyIsSpace c = false := by
    simp only [pyIsSpace, decide_eq_false_iff_not]
    omega
  have hcolon : (c.toNat = 58) = False := by
    simp only [eq_iff_iff, iff_false]
    omega
  have h1 : match1 [c, ':'] = none := by
    simp [match1, h, List.takeWhile, List.dropWhile,
      show isLabelChar ':' = false from by decide]
  have h2 : match2 [c, ':'] = none := by
    simp [match2, h, List.takeWhile, List.dropWhile,
      show isLabelChar ':' = false from by decide]
  have h3 : match3 [c, ':'] = none := by
    simp [match3, List.takeWhile, hdig]
  have h4 : match4 [c, ':'] = none := by
    by_cases hg : isGlyph c = true
    · simp [match4, hg, List.takeWhile, List.dropWhile, hsp,
        show pyIsSpace ':' = false from by decide]
    · simp [match4, hg]
  have h5 : rule5 [c, ':'] = some [c] := by
    simp [rule5, h, List.takeWhile, hcolon, pyStrip, stripLeft, stripRight,
      List.dropWhile, hsp, wordCount, wordCountAux]
  refine ⟨h1, ?_⟩
  unfold classifyLine
  rw [h1, h2, h3, h4, h5]

/-- Witness for C8 at the line "A:". -/
theorem claim_C8_rule5_no_lower_bound_witness :
    match1 ['A', ':'] = none ∧ classifyLine ['A', ':'] = some (5, ['A']) :=
  claim_C8_rule5_no_lower_bound 'A' (by decide)

/-- C9: aggregation over pages is set union under exact string
equality: each candidate appears at most once in the finalized
sequence (duplicates from different pages collapse), and a string is
in the finalized sequence exactly when some page's text yields it. -/
theorem claim_C9_deduplication (pages : List String) (x : String) :
    (finalizeFields (extractPages pages)).count x ≤ 1 ∧
    (x ∈ finalizeFields (extractPages pages) ↔
      ∃ t ∈ pages, x ∈ identify_field_names t) := by
  constructor
  · exact List.nodup_iff_count_le_one.mp (Finset.sort_nodup _ _) x
  · rw [finalizeFields, Finset.mem_sort, mem_extractPages]

/-- C10: on rasterization failure the driver's trace is exit code 1
with no report-written event; on success, any report-written event
carries the report of the complete field set of all pages and occurs
strictly after every page-processed event. -/
theorem claim_C10_no_partial_report (src : String) :
    (∀ e ∈ driverTrace src none, e.isReport = false) ∧
    ∀ (pages : List String) (k : Nat) (r : List String),
      (driverTrace src (some pages)).get? k = some (Event.reportWritten r) →
      r = save_results src (extractPages pages) ∧
      ∀ (j i cnt : Nat), (driverTrace src (some pages)).get? j =
          some (Event.pageProcessed i cnt) → j < k := by
  constructor
  · intro e he
    simp only [driverTrace, List.mem_singleton] at he
    subst he
    rfl
  · intro pages k r hk
    simp only [driverTrace] at hk
    have hmaplen : (pages.enum.map (fun p =>
        Event.pageProcessed (p.1 + 1) (identify_field_names p.2).length)).length =
        pages.length := by
      simp
    have hnk : pages.length ≤ k := by
      by_contra hlt
      push_neg at hlt
      rw [List.get?_append (by omega)] at hk
      rw [List.get?_map] at hk
      cases he : pages.enum.get? k with
      | none => rw [he] at hk; simp at hk
      | some p => rw [he] at hk; simp at hk
    rw [List.get?_append_right (by omega)] at hk
    rw [hmaplen] at hk
    have hreport : k - pages.length = 0 ∧
        r = save_results src (extractPages pages) := by
      cases hm : k - pages.length with
      | zero => rw [hm] at hk; simp at hk; exact ⟨rfl, hk.symm⟩
      | succ m =>
        cases m with
        | zero => rw [hm] at hk; simp at hk
        | succ m1 => rw [hm] at hk; simp at hk
    refine ⟨hreport.2, ?_⟩
    intro j i cnt hj
    simp only [driverTrace] at hj
    by_contra hjk
    push_neg at hjk
    have hjn : pages.length ≤ j := by omega
    rw [List.get?_append_right (by omega)] at hj
    rw [hmaplen] at hj
    cases hm : j - pages.length with
    | zero => rw [hm] at hj; simp at hj
    | succ m =>
      cases m with
      | zero => rw [hm] at hj; simp at hj
      | succ m1 => rw [hm] at hj; simp at hj

/-- Witness for C10 on a one-page run: the report event sits at index
1, and the page-processed event at index 0 is before it. -/
theorem claim_C10_no_partial_report_witness :
    save_results "form.pdf" (extractPages ["Named Insured:"]) =
      save_results "form.pdf" (extractPages ["Named Insured:"]) ∧ 0 < 1 :=
  ⟨((claim_C10_no_partial_report "form.pdf").2 ["Named Insured:"] 1
      (save_results "form.pdf" (extractPages ["Named Insured:"])) rfl).1,
    ((claim_C10_no_partial_report "form.pdf").2 ["Named Insured:"] 1
      (save_results "form.pdf" (extractPages ["Named Insured:"])) rfl).2 0 1
      (identify_field_names "Named Insured:").length rfl⟩

end Acord
